import Mathlib

/-!
Shallow embedding of the RevRead buffer abstraction
(`src/read_back/rev_read_borrowed_buf.rs`).

A byte of the underlying region is modelled as an `Option Nat`:
`some v` is a byte holding the defined value `v`, and `none` is a byte
whose contents are undefined (a `MaybeUninit` byte that was never written).
`RevBorrowedBuf` tracks two boundary indices into the region, `filled` and
`init`; bytes at index `≥ filled` are filled and bytes at index `≥ init`
are initialized.  A `RevBorrowedCursor` wraps the buffer together with a
snapshot `start` of the filled boundary at creation time.
-/

/-- A byte cell of the region: `none` models a byte with undefined contents. -/
abbrev Cell : Type := Option Nat

/-- State of `RevBorrowedBuf`: the underlying region together with the
`filled` and `init` boundary indices (fields as in the Rust struct). -/
structure RevBorrowedBuf where
  buf : List Cell
  filled : Nat
  init : Nat
deriving DecidableEq

/-- Construction from a fully initialized slice
(`impl From<&mut [u8]> for RevBorrowedBuf`): `filled = len`, `init = 0`. -/
def RevBorrowedBuf.fromSlice (data : List Nat) : RevBorrowedBuf :=
  { buf := data.map some, filled := data.length, init := 0 }

/-- Construction from an uninitialized buffer
(`impl From<&mut [MaybeUninit<u8>]> for RevBorrowedBuf`):
`filled = init = len`; the cells are whatever the caller supplies. -/
def RevBorrowedBuf.fromUninit (cells : List Cell) : RevBorrowedBuf :=
  { buf := cells, filled := cells.length, init := cells.length }

/-- Total capacity of the buffer (`RevBorrowedBuf::capacity`). -/
def RevBorrowedBuf.capacity (b : RevBorrowedBuf) : Nat := b.buf.length

/-- Amount of filled bytes (`RevBorrowedBuf::len`): `capacity - filled`. -/
def RevBorrowedBuf.len (b : RevBorrowedBuf) : Nat := b.capacity - b.filled

/-- Emptiness test (`RevBorrowedBuf::is_empty`): true iff the underlying
region has length zero. -/
def RevBorrowedBuf.is_empty (b : RevBorrowedBuf) : Bool := b.buf.length == 0

/-- Amount of initialized bytes (`RevBorrowedBuf::init_len`). -/
def RevBorrowedBuf.init_len (b : RevBorrowedBuf) : Nat := b.capacity - b.init

/-- The filled portion of the buffer (`RevBorrowedBuf::filled`): the cells
at indices `≥ filled`. -/
def RevBorrowedBuf.filledBytes (b : RevBorrowedBuf) : List Cell := b.buf.drop b.filled

/-- Reset of the filled region (`RevBorrowedBuf::clear`):
`filled := capacity`; contents and `init` untouched. -/
def RevBorrowedBuf.clear (b : RevBorrowedBuf) : RevBorrowedBuf :=
  { b with filled := b.buf.length }

/-- Buffer-level initialization assertion (`RevBorrowedBuf::set_init`):
`init := min(init, n)`. -/
def RevBorrowedBuf.set_init (b : RevBorrowedBuf) (n : Nat) : RevBorrowedBuf :=
  { b with init := min b.init n }

/-- State of `RevBorrowedCursor`: the underlying buffer plus the snapshot
`start` of the filled boundary taken when the cursor was created. -/
structure RevBorrowedCursor where
  buf : RevBorrowedBuf
  start : Nat
deriving DecidableEq

/-- Cursor creation (`RevBorrowedBuf::unfilled`): `start := filled`. -/
def RevBorrowedBuf.unfilled (b : RevBorrowedBuf) : RevBorrowedCursor :=
  { buf := b, start := b.filled }

/-- Cursor reborrowing (`RevBorrowedCursor::reborrow`): same buffer, same
`start` snapshot. -/
def RevBorrowedCursor.reborrow (c : RevBorrowedCursor) : RevBorrowedCursor :=
  { buf := c.buf, start := c.start }

/-- Remaining writable space of the cursor (`RevBorrowedCursor::capacity`):
the buffer's current `filled` boundary. -/
def RevBorrowedCursor.capacity (c : RevBorrowedCursor) : Nat := c.buf.filled

/-- Bytes written through this cursor lineage (`RevBorrowedCursor::written`):
`start - filled`. -/
def RevBorrowedCursor.written (c : RevBorrowedCursor) : Nat := c.start - c.buf.filled

/-- The initialized portion seen by the cursor (`RevBorrowedCursor::init_ref`):
cells at indices `≥ init`. -/
def RevBorrowedCursor.init_ref (c : RevBorrowedCursor) : List Cell :=
  c.buf.buf.drop c.buf.init

/-- The uninitialized prefix seen by the cursor (`RevBorrowedCursor::uninit_mut`):
cells at indices `< init`. -/
def RevBorrowedCursor.uninit_mut (c : RevBorrowedCursor) : List Cell :=
  c.buf.buf.take c.buf.init

/-- The whole unfilled range seen by the cursor (`RevBorrowedCursor::as_mut`):
cells at indices `< filled`. -/
def RevBorrowedCursor.as_mut (c : RevBorrowedCursor) : List Cell :=
  c.buf.buf.take c.buf.filled

/-- Cursor advancing (`RevBorrowedCursor::advance`): `filled -= n`, then
`init := min(init, filled)`. -/
def RevBorrowedCursor.advance (c : RevBorrowedCursor) (n : Nat) : RevBorrowedCursor :=
  { c with buf := { c.buf with
      filled := c.buf.filled - n,
      init := min c.buf.init (c.buf.filled - n) } }

/-- Zero-filling of the uninitialized prefix (`RevBorrowedCursor::ensure_init`):
writes byte `0` into every cell of `buf[0..init]`, then `init := 0`.  The
`min` mirrors the length of the Rust slice `buf[..init]`. -/
def RevBorrowedCursor.ensure_init (c : RevBorrowedCursor) : RevBorrowedCursor :=
  { c with buf := { c.buf with
      buf := List.replicate (min c.buf.init c.buf.buf.length) (some 0)
        ++ c.buf.buf.drop c.buf.init,
      init := 0 } }

/-- Cursor-level initialization assertion (`RevBorrowedCursor::set_init`):
`init := min(init, filled.saturating_sub(n))` (Nat subtraction saturates). -/
def RevBorrowedCursor.set_init (c : RevBorrowedCursor) (n : Nat) : RevBorrowedCursor :=
  { c with buf := { c.buf with init := min c.buf.init (c.buf.filled - n) } }

/-- Overwriting of `data.length` cells of `buf` ending at `pos + data.length`,
used to model the `MaybeUninit::copy_from_slice` call inside `append`. -/
def writeBytes (buf : List Cell) (pos : Nat) (data : List Nat) : List Cell :=
  buf.take pos ++ data.map some ++ buf.drop (pos + data.length)

/-- Appending data through the cursor (`RevBorrowedCursor::append`).
The Rust code asserts `capacity() ≥ buf.len()` before touching the buffer
and panics otherwise; failure is modelled as `none`, in which case no cell
and no boundary has been modified.  On success it copies `data` into the
cells `[filled - data.length, filled)`, performs
`set_init(data.length)` (`init := min(init, filled - data.length)`, with
saturating subtraction) and finally `filled -= data.length`. -/
def RevBorrowedCursor.append (c : RevBorrowedCursor) (data : List Nat) :
    Option RevBorrowedCursor :=
  if c.capacity < data.length then none
  else some { c with buf := { c.buf with
    buf := writeBytes c.buf.buf (c.buf.filled - data.length) data,
    init := min c.buf.init (c.buf.filled - data.length),
    filled := c.buf.filled - data.length } }

/-- Sequential appending of a list of chunks through the cursor; fails as
soon as one `append` fails. -/
def appendAll (c : RevBorrowedCursor) : List (List Nat) → Option RevBorrowedCursor
  | [] => some c
  | d :: ds =>
    match c.append d with
    | none => none
    | some c2 => appendAll c2 ds

/-- One operation of the buffer/cursor interface, acting on the buffer
state.  Cursor operations act through a freshly taken cursor; `unfilledOp`
and `reborrowOp` are included for completeness (they do not change the
buffer state). -/
inductive Op where
  | clear : Op
  | setInitView (n : Nat) : Op
  | setInitCur (n : Nat) : Op
  | ensureInit : Op
  | unfilledOp : Op
  | reborrowOp : Op
  | advance (n : Nat) : Op
  | append (data : List Nat) : Op
deriving DecidableEq

/-- Effect of one operation on the buffer state.  `advance` requires
`n ≤ cursor capacity` and `append` requires `data.length ≤ cursor capacity`
(the preconditions stated in the specification); otherwise the step is
unavailable (`none`). -/
def applyOp (b : RevBorrowedBuf) : Op → Option RevBorrowedBuf
  | Op.clear => some b.clear
  | Op.setInitView n => some (b.set_init n)
  | Op.setInitCur n => some ((b.unfilled.set_init n).buf)
  | Op.ensureInit => some ((b.unfilled.ensure_init).buf)
  | Op.unfilledOp => some (b.unfilled.buf)
  | Op.reborrowOp => some ((b.unfilled.reborrow).buf)
  | Op.advance n =>
    if n ≤ b.unfilled.capacity then some ((b.unfilled.advance n).buf) else none
  | Op.append data => (b.unfilled.append data).map RevBorrowedCursor.buf

/-- Effect of a sequence of operations on the buffer state. -/
def applyOps (b : RevBorrowedBuf) : List Op → Option RevBorrowedBuf
  | [] => some b
  | op :: ops =>
    match applyOp b op with
    | none => none
    | some b2 => applyOps b2 ops

/-- Buffer states reachable from either constructor by the operations
of the interface. -/
inductive Reachable : RevBorrowedBuf → Prop where
  | fromSlice (data : List Nat) : Reachable (RevBorrowedBuf.fromSlice data)
  | fromUninit (cells : List Cell) : Reachable (RevBorrowedBuf.fromUninit cells)
  | step (b b2 : RevBorrowedBuf) (op : Op) :
      Reachable b → applyOp b op = some b2 → Reachable b2

/-- The double-cursor invariant: `init ≤ filled ≤ capacity`. -/
def BufInv (b : RevBorrowedBuf) : Prop :=
  b.init ≤ b.filled ∧ b.filled ≤ b.buf.length

theorem writeBytes_length (buf : List Cell) (pos : Nat) (data : List Nat)
    (h : pos + data.length ≤ buf.length) :
    (writeBytes buf pos data).length = buf.length := by
  simp only [writeBytes, List.length_append, List.length_take, List.length_drop,
    List.length_map]
  omega

theorem inv_step (b b2 : RevBorrowedBuf) (op : Op)
    (hInv : BufInv b) (h : applyOp b op = some b2) : BufInv b2 := by
  obtain ⟨h1, h2⟩ := hInv
  cases op with
  | clear =>
    simp only [applyOp, RevBorrowedBuf.clear, Option.some_inj] at h
    subst h
    exact ⟨le_trans h1 h2, le_refl _⟩
  | setInitView n =>
    simp only [applyOp, RevBorrowedBuf.set_init, Option.some_inj] at h
    subst h
    exact ⟨le_trans (min_le_left _ _) h1, h2⟩
  | setInitCur n =>
    simp only [applyOp, RevBorrowedBuf.unfilled, RevBorrowedCursor.set_init,
      Option.some_inj] at h
    subst h
    exact ⟨le_trans (min_le_left _ _) h1, h2⟩
  | ensureInit =>
    simp only [applyOp, RevBorrowedBuf.unfilled, RevBorrowedCursor.ensure_init,
      Option.some_inj] at h
    subst h
    refine ⟨Nat.zero_le _, ?_⟩
    simp only [List.length_append, List.length_replicate, List.length_drop]
    omega
  | unfilledOp =>
    simp only [applyOp, RevBorrowedBuf.unfilled, Option.some_inj] at h
    subst h
    exact ⟨h1, h2⟩
  | reborrowOp =>
    simp only [applyOp, RevBorrowedBuf.unfilled, RevBorrowedCursor.reborrow,
      Option.some_inj] at h
    subst h
    exact ⟨h1, h2⟩
  | advance n =>
    simp only [applyOp, RevBorrowedBuf.unfilled, RevBorrowedCursor.advance,
      RevBorrowedCursor.capacity] at h
    split at h
    · simp only [Option.some_inj] at h
      subst h
      exact ⟨min_le_right _ _, le_trans (Nat.sub_le _ _) h2⟩
    · exact absurd h (by simp)
  | append data =>
    simp only [applyOp, RevBorrowedBuf.unfilled, RevBorrowedCursor.append,
      RevBorrowedCursor.capacity] at h
    split at h
    · exact absurd h (by simp)
    · rw [Option.map_some'] at h
      rw [Option.some_inj] at h
      subst h
      refine ⟨min_le_right _ _, ?_⟩
      rename_i hcap
      push_neg at hcap
      rw [writeBytes_length _ _ _ (by omega)]
      exact le_trans (Nat.sub_le _ _) h2

theorem inv_of_reachable (b : RevBorrowedBuf) (h : Reachable b) : BufInv b := by
  induction h with
  | fromSlice data =>
    refine ⟨Nat.le_refl _ |>.trans ?_, ?_⟩ <;>
      simp [RevBorrowedBuf.fromSlice]
  | fromUninit cells =>
    exact ⟨le_refl _, le_refl _⟩
  | step b b2 op _ hstep ih => exact inv_step b b2 op ih hstep

theorem applyOp_init_le (b b2 : RevBorrowedBuf) (op : Op)
    (h : applyOp b op = some b2) : b2.init ≤ b.init := by
  cases op with
  | clear =>
    simp only [applyOp, RevBorrowedBuf.clear, Option.some_inj] at h
    subst h; exact le_refl _
  | setInitView n =>
    simp only [applyOp, RevBorrowedBuf.set_init, Option.some_inj] at h
    subst h; exact min_le_left _ _
  | setInitCur n =>
    simp only [applyOp, RevBorrowedBuf.unfilled, RevBorrowedCursor.set_init,
      Option.some_inj] at h
    subst h; exact min_le_left _ _
  | ensureInit =>
    simp only [applyOp, RevBorrowedBuf.unfilled, RevBorrowedCursor.ensure_init,
      Option.some_inj] at h
    subst h; exact Nat.zero_le _
  | unfilledOp =>
    simp only [applyOp, RevBorrowedBuf.unfilled, Option.some_inj] at h
    subst h; exact le_refl _
  | reborrowOp =>
    simp only [applyOp, RevBorrowedBuf.unfilled, RevBorrowedCursor.reborrow,
      Option.some_inj] at h
    subst h; exact le_refl _
  | advance n =>
    simp only [applyOp, RevBorrowedBuf.unfilled, RevBorrowedCursor.advance,
      RevBorrowedCursor.capacity] at h
    split at h
    · simp only [Option.some_inj] at h
      subst h; exact min_le_left _ _
    · exact absurd h (by simp)
  | append data =>
    simp only [applyOp, RevBorrowedBuf.unfilled, RevBorrowedCursor.append,
      RevBorrowedCursor.capacity] at h
    split at h
    · exact absurd h (by simp)
    · rw [Option.map_some'] at h
      rw [Option.some_inj] at h
      subst h; exact min_le_left _ _

theorem applyOps_init_le (ops : List Op) (b b3 : RevBorrowedBuf)
    (h : applyOps b ops = some b3) : b3.init ≤ b.init := by
  induction ops generalizing b with
  | nil =>
    simp only [applyOps, Option.some_inj] at h
    subst h; exact le_refl _
  | cons op ops ih =>
    rw [applyOps] at h
    cases happ : applyOp b op with
    | none => rw [happ] at h; cases h
    | some b1 =>
      rw [happ] at h
      exact le_trans (ih b1 h) (applyOp_init_le b b1 op happ)

theorem applyOp_filled_cases (b b2 : RevBorrowedBuf) (op : Op)
    (hInv : BufInv b) (h : applyOp b op = some b2) :
    ((b2.filled < b.filled → (∃ n, op = Op.advance n) ∨ (∃ d, op = Op.append d)) ∧
      (b.filled < b2.filled → op = Op.clear) ∧
      (op = Op.clear → b2.filled = b.capacity)) := by
  obtain ⟨h1, h2⟩ := hInv
  cases op with
  | clear =>
    simp only [applyOp, RevBorrowedBuf.clear, Option.some_inj] at h
    subst h
    refine ⟨fun hlt => absurd hlt (by simp only [not_lt]; exact h2), fun _ => rfl,
      fun _ => rfl⟩
  | setInitView n =>
    simp only [applyOp, RevBorrowedBuf.set_init, Option.some_inj] at h
    subst h
    exact ⟨fun hlt => absurd hlt (lt_irrefl _), fun hlt => absurd hlt (lt_irrefl _),
      fun hop => by cases hop⟩
  | setInitCur n =>
    simp only [applyOp, RevBorrowedBuf.unfilled, RevBorrowedCursor.set_init,
      Option.some_inj] at h
    subst h
    exact ⟨fun hlt => absurd hlt (lt_irrefl _), fun hlt => absurd hlt (lt_irrefl _),
      fun hop => by cases hop⟩
  | ensureInit =>
    simp only [applyOp, RevBorrowedBuf.unfilled, RevBorrowedCursor.ensure_init,
      Option.some_inj] at h
    subst h
    exact ⟨fun hlt => absurd hlt (lt_irrefl _), fun hlt => absurd hlt (lt_irrefl _),
      fun hop => by cases hop⟩
  | unfilledOp =>
    simp only [applyOp, RevBorrowedBuf.unfilled, Option.some_inj] at h
    subst h
    exact ⟨fun hlt => absurd hlt (lt_irrefl _), fun hlt => absurd hlt (lt_irrefl _),
      fun hop => by cases hop⟩
  | reborrowOp =>
    simp only [applyOp, RevBorrowedBuf.unfilled, RevBorrowedCursor.reborrow,
      Option.some_inj] at h
    subst h
    exact ⟨fun hlt => absurd hlt (lt_irrefl _), fun hlt => absurd hlt (lt_irrefl _),
      fun hop => by cases hop⟩
  | advance n =>
    simp only [applyOp, RevBorrowedBuf.unfilled, RevBorrowedCursor.advance,
      RevBorrowedCursor.capacity] at h
    split at h
    · simp only [Option.some_inj] at h
      subst h
      refine ⟨fun _ => Or.inl ⟨n, rfl⟩, fun hlt => ?_, fun hop => by cases hop⟩
      exact absurd hlt (by simp only [not_lt]; exact Nat.sub_le _ _)
    · exact absurd h (by simp)
  | append data =>
    simp only [applyOp, RevBorrowedBuf.unfilled, RevBorrowedCursor.append,
      RevBorrowedCursor.capacity] at h
    split at h
    · exact absurd h (by simp)
    · rw [Option.map_some'] at h
      rw [Option.some_inj] at h
      subst h
      refine ⟨fun _ => Or.inr ⟨data, rfl⟩, fun hlt => ?_, fun hop => by cases hop⟩
      exact absurd hlt (by simp only [not_lt]; exact Nat.sub_le _ _)

/-- C1: for every `RevBorrowedBuf` constructed from a fully initialized or an
uninitialized slice, and every sequence of the interface operations (with
`advance`/`append` restricted to the cursor capacity), every reachable state
satisfies `0 ≤ init ≤ filled ≤ capacity`. -/
theorem rev_buf_reachable_invariant (b : RevBorrowedBuf) (h : Reachable b) :
    0 ≤ b.init ∧ b.init ≤ b.filled ∧ b.filled ≤ b.capacity := by
  obtain ⟨h1, h2⟩ := inv_of_reachable b h
  exact ⟨Nat.zero_le _, h1, h2⟩

theorem rev_buf_reachable_invariant_witness :
    0 ≤ (RevBorrowedBuf.fromSlice [1, 2, 3]).init ∧
    (RevBorrowedBuf.fromSlice [1, 2, 3]).init ≤ (RevBorrowedBuf.fromSlice [1, 2, 3]).filled ∧
    (RevBorrowedBuf.fromSlice [1, 2, 3]).filled ≤ (RevBorrowedBuf.fromSlice [1, 2, 3]).capacity :=
  rev_buf_reachable_invariant _ (Reachable.fromSlice [1, 2, 3])

/-- C2: for every cursor state and every `data` with
`data.length > capacity()`, `append` fails.  The Rust assertion fires before
any byte is copied or any boundary is updated, which the model reflects by
returning `none` with the original state untouched. -/
theorem append_capacity_violation_fails (c : RevBorrowedCursor) (data : List Nat)
    (h : c.capacity < data.length) : c.append data = none := by
  rw [RevBorrowedCursor.append, if_pos h]

theorem append_capacity_violation_fails_witness :
    (RevBorrowedBuf.fromSlice []).unfilled.capacity < ([4, 5] : List Nat).length ∧
    (RevBorrowedBuf.fromSlice []).unfilled.append [4, 5] = none :=
  ⟨by decide, append_capacity_violation_fails _ _ (by decide)⟩

/-- C5 counterexample: on the state with `capacity = 4` and `init = 2`
(reached from an uninitialized region by `set_init 2`), calling the
view-level `set_init 1` with `1 < init_len() = 2` is not a no-op: it lowers
`init` from 2 to 1. -/
theorem view_set_init_noop_cex :
    (1 : Nat) < ((RevBorrowedBuf.fromUninit (List.replicate 4 none)).set_init 2).init_len ∧
    ((RevBorrowedBuf.fromUninit (List.replicate 4 none)).set_init 2).set_init 1 ≠
      (RevBorrowedBuf.fromUninit (List.replicate 4 none)).set_init 2 := by
  exact ⟨by decide, by decide⟩

/-- C5 (amended): the view-level `set_init n` sets `init` to `min init n`,
never increases `init`, and is a no-op (state unchanged) whenever `n` is at
least the current `init` boundary index (rather than whenever
`n < init_len()`). -/
theorem view_set_init_spec (b : RevBorrowedBuf) (n : Nat) :
    (b.set_init n).init = min b.init n ∧
    (b.set_init n).init ≤ b.init ∧
    (b.init ≤ n → b.set_init n = b) := by
  refine ⟨rfl, min_le_left _ _, fun h => ?_⟩
  cases b with
  | mk cells filled ini => simp [RevBorrowedBuf.set_init, min_eq_left h]

theorem view_set_init_spec_witness :
    ((RevBorrowedBuf.fromSlice [7, 8]).set_init 1).init =
      min (RevBorrowedBuf.fromSlice [7, 8]).init 1 ∧
    ((RevBorrowedBuf.fromSlice [7, 8]).set_init 1).init ≤
      (RevBorrowedBuf.fromSlice [7, 8]).init ∧
    ((RevBorrowedBuf.fromSlice [7, 8]).init ≤ 1 →
      (RevBorrowedBuf.fromSlice [7, 8]).set_init 1 = RevBorrowedBuf.fromSlice [7, 8]) :=
  view_set_init_spec (RevBorrowedBuf.fromSlice [7, 8]) 1

/-- C10: `is_empty` is true iff the total capacity is zero, independently of
how much is filled; over a non-empty region it is false even when
`len() = 0`, both right after construction from a fully initialized slice
and after `clear()`. -/
theorem is_empty_iff_capacity_zero (b : RevBorrowedBuf) (data : List Nat)
    (h : data ≠ []) :
    (b.is_empty = true ↔ b.capacity = 0) ∧
    (RevBorrowedBuf.fromSlice data).is_empty = false ∧
    (RevBorrowedBuf.fromSlice data).len = 0 ∧
    b.clear.is_empty = b.is_empty ∧
    b.clear.len = 0 := by
  refine ⟨?_, ?_, ?_, rfl, ?_⟩
  · simp [RevBorrowedBuf.is_empty, RevBorrowedBuf.capacity]
  · simp [RevBorrowedBuf.is_empty, RevBorrowedBuf.fromSlice, h]
  · simp [RevBorrowedBuf.len, RevBorrowedBuf.fromSlice, RevBorrowedBuf.capacity]
  · simp [RevBorrowedBuf.len, RevBorrowedBuf.clear, RevBorrowedBuf.capacity]

theorem is_empty_iff_capacity_zero_witness :
    (([5] : List Nat) ≠ []) ∧
    (((RevBorrowedBuf.fromUninit []).is_empty = true ↔
        (RevBorrowedBuf.fromUninit []).capacity = 0) ∧
      (RevBorrowedBuf.fromSlice [5]).is_empty = false ∧
      (RevBorrowedBuf.fromSlice [5]).len = 0 ∧
      (RevBorrowedBuf.fromUninit []).clear.is_empty = (RevBorrowedBuf.fromUninit []).is_empty ∧
      (RevBorrowedBuf.fromUninit []).clear.len = 0) :=
  ⟨by decide, is_empty_iff_capacity_zero (RevBorrowedBuf.fromUninit []) [5] (by decide)⟩

/-- C3 counterexample: on the fully defined region `[1,2,3]`, after
`clear()`, appending the consecutive chunks `[1]` then `[2,3]` of the
original content in order yields `filled() = [2,3,1]`, not `[1,2,3]`:
the first appended chunk lands at the top of the buffer, so in-order
chunked appends permute the content. -/
theorem append_in_order_roundtrip_cex :
    (([[1], [2, 3]] : List (List Nat)).flatten = [1, 2, 3]) ∧
    (appendAll ((RevBorrowedBuf.fromSlice [1, 2, 3]).clear.unfilled) [[1], [2, 3]]).map
      (fun c2 => c2.buf.filledBytes) = some [some 2, some 3, some 1] ∧
    some ([some 2, some 3, some 1] : List Cell) ≠
      some (([1, 2, 3] : List Nat).map some) := by
  exact ⟨by decide, by decide, by decide⟩

theorem writeBytes_self (P R : List Cell) (d : List Nat) :
    writeBytes (P ++ d.map some ++ R) P.length d = P ++ d.map some ++ R := by
  have h1 : (P ++ List.map some d ++ R).take P.length = P := by
    rw [List.append_assoc, List.take_left]
  have h2 : (P ++ List.map some d ++ R).drop (P.length + d.length) = R := by
    have hl : (P ++ List.map some d).length = P.length + d.length := by
      simp [List.length_append]
    rw [List.append_assoc, ← List.append_assoc, List.drop_left' hl]
  rw [writeBytes, h1, h2]

theorem appendAll_rejoin (ds : List (List Nat)) (rest : List Nat)
    (c : RevBorrowedCursor)
    (hbuf : c.buf.buf = (ds.reverse.flatten ++ rest).map some)
    (hfill : c.buf.filled = ds.reverse.flatten.length) :
    (appendAll c ds).map (fun c2 => (c2.buf.buf, c2.buf.filled)) =
      some (c.buf.buf, 0) := by
  induction ds generalizing rest c with
  | nil =>
    simp only [List.reverse_nil, List.flatten_nil, List.length_nil] at hfill
    simp only [appendAll, Option.map_some']
    rw [hfill]
  | cons d ds ih =>
    have hj : (d :: ds).reverse.flatten = ds.reverse.flatten ++ d := by
      simp
    rw [hj] at hbuf hfill
    have hcap : ¬ (c.capacity < d.length) := by
      rw [RevBorrowedCursor.capacity, hfill]
      simp [List.length_append]
    have hpos : c.buf.filled - d.length = ds.reverse.flatten.length := by
      rw [hfill]; simp [List.length_append]
    have hmap : (ds.reverse.flatten ++ d ++ rest).map some =
        ds.reverse.flatten.map some ++ d.map some ++ rest.map some := by
      simp [List.map_append]
    have hwrite :
        writeBytes c.buf.buf (c.buf.filled - d.length) d = c.buf.buf := by
      rw [hbuf, hmap, hpos]
      have := writeBytes_self (ds.reverse.flatten.map some) (rest.map some) d
      rw [List.length_map] at this
      exact this
    rw [appendAll, RevBorrowedCursor.append, if_neg hcap, hwrite]
    have hres := ih (d ++ rest)
      { c with buf := { c.buf with
          buf := c.buf.buf,
          init := min c.buf.init (c.buf.filled - d.length),
          filled := c.buf.filled - d.length } }
      (by simpa [List.append_assoc] using hbuf) hpos
    exact hres

/-- C3 (amended): from a fully defined region holding `content`, after
`clear()`, appending the chunks of any in-order decomposition of `content`
in reverse chunk order (last chunk of `content` first) reproduces the
original content: `filled()` equals `content` afterwards.  (Appending the
chunks in their original order does not, see the counterexample.) -/
theorem append_reverse_chunks_roundtrip (content : List Nat)
    (cs : List (List Nat)) (h : cs.flatten = content) :
    (appendAll ((RevBorrowedBuf.fromSlice content).clear.unfilled) cs.reverse).map
      (fun c2 => c2.buf.filledBytes) = some (content.map some) := by
  have hbuf : ((RevBorrowedBuf.fromSlice content).clear.unfilled).buf.buf =
      (cs.reverse.reverse.flatten ++ []).map some := by
    simp [RevBorrowedBuf.fromSlice, RevBorrowedBuf.clear, RevBorrowedBuf.unfilled, h]
  have hfill : ((RevBorrowedBuf.fromSlice content).clear.unfilled).buf.filled =
      cs.reverse.reverse.flatten.length := by
    simp [RevBorrowedBuf.fromSlice, RevBorrowedBuf.clear, RevBorrowedBuf.unfilled, h]
  have main := appendAll_rejoin cs.reverse [] _ hbuf hfill
  cases happ : appendAll ((RevBorrowedBuf.fromSlice content).clear.unfilled) cs.reverse with
  | none => rw [happ] at main; cases main
  | some c2 =>
    rw [happ] at main
    simp only [Option.map_some', Option.some_inj, Prod.mk.injEq] at main
    obtain ⟨hb, hf⟩ := main
    simp only [Option.map_some', Option.some_inj]
    rw [RevBorrowedBuf.filledBytes, hf, List.drop_zero, hb]
    simp [RevBorrowedBuf.fromSlice, RevBorrowedBuf.clear, RevBorrowedBuf.unfilled]

theorem append_reverse_chunks_roundtrip_witness :
    (([[1], [2, 3]] : List (List Nat)).flatten = [1, 2, 3]) ∧
    (appendAll ((RevBorrowedBuf.fromSlice [1, 2, 3]).clear.unfilled)
        ([[1], [2, 3]] : List (List Nat)).reverse).map
      (fun c2 => c2.buf.filledBytes) = some (([1, 2, 3] : List Nat).map some) :=
  ⟨by decide, append_reverse_chunks_roundtrip [1, 2, 3] [[1], [2, 3]] (by decide)⟩



/-- C4: when `capacity() ≥ data.length` (and the cursor is structurally
valid: `filled ≤ buffer length` and `filled ≤ start`, as the source
invariants guarantee), `append data` succeeds, copies `data` into the top
of the unfilled range `[filled - data.length, filled)` leaving all other
cells untouched, marks that span initialized
(`init := min init (filled - data.length)`), decreases `filled` by
`data.length`, grows `written()` by `data.length`, shrinks `capacity()` by
`data.length`, and makes the view's `filled()` equal to `data` followed by
the previously filled bytes. -/
theorem append_spec (c : RevBorrowedCursor) (data : List Nat)
    (hcap : data.length ≤ c.capacity)
    (hvalid : c.buf.filled ≤ c.buf.buf.length)
    (hstart : c.buf.filled ≤ c.start) :
    ∃ c2, c.append data = some c2 ∧
      c2.buf.buf.take (c.buf.filled - data.length) =
        c.buf.buf.take (c.buf.filled - data.length) ∧
      (c2.buf.buf.drop (c.buf.filled - data.length)).take data.length =
        data.map some ∧
      c2.buf.buf.drop c.buf.filled = c.buf.buf.drop c.buf.filled ∧
      c2.buf.init = min c.buf.init (c.buf.filled - data.length) ∧
      c2.buf.filled = c.buf.filled - data.length ∧
      c2.written = c.written + data.length ∧
      c2.capacity = c.capacity - data.length ∧
      c2.buf.filledBytes = data.map some ++ c.buf.filledBytes := by
  rw [RevBorrowedCursor.capacity] at hcap
  have hno : ¬ (c.capacity < data.length) := not_lt.mpr hcap
  have hlen : (c.buf.buf.take (c.buf.filled - data.length)).length =
      c.buf.filled - data.length := by
    rw [List.length_take]
    omega
  have hlen2 : (c.buf.buf.take (c.buf.filled - data.length) ++ data.map some).length =
      c.buf.filled := by
    rw [List.length_append, List.length_take, List.length_map]
    omega
  have hpd : c.buf.filled - data.length + data.length = c.buf.filled := by omega
  refine ⟨_, by rw [RevBorrowedCursor.append, if_neg hno], ?_, ?_, ?_, ?_, ?_, ?_, ?_, ?_⟩ <;>
    dsimp only [writeBytes, RevBorrowedCursor.written, RevBorrowedCursor.capacity,
      RevBorrowedBuf.filledBytes]
  · rw [List.append_assoc, List.take_left' hlen]
  · rw [List.append_assoc, List.drop_left' hlen, List.take_left' (by simp)]
  · rw [List.drop_left' hlen2, hpd]
  · omega
  · rw [List.append_assoc, List.drop_left' hlen, hpd]

theorem append_spec_witness :
    (([4, 5] : List Nat).length ≤ (RevBorrowedBuf.fromSlice [1, 2, 3]).unfilled.capacity ∧
      (RevBorrowedBuf.fromSlice [1, 2, 3]).unfilled.capacity = 3) ∧
    (∃ c2, (RevBorrowedBuf.fromSlice [1, 2, 3]).unfilled.append [4, 5] = some c2 ∧
      c2.buf.buf.take ((RevBorrowedBuf.fromSlice [1, 2, 3]).unfilled.buf.filled - ([4, 5] : List Nat).length) =
        (RevBorrowedBuf.fromSlice [1, 2, 3]).unfilled.buf.buf.take
          ((RevBorrowedBuf.fromSlice [1, 2, 3]).unfilled.buf.filled - ([4, 5] : List Nat).length) ∧
      (c2.buf.buf.drop ((RevBorrowedBuf.fromSlice [1, 2, 3]).unfilled.buf.filled - ([4, 5] : List Nat).length)).take
          ([4, 5] : List Nat).length = ([4, 5] : List Nat).map some ∧
      c2.buf.buf.drop (RevBorrowedBuf.fromSlice [1, 2, 3]).unfilled.buf.filled =
        (RevBorrowedBuf.fromSlice [1, 2, 3]).unfilled.buf.buf.drop
          (RevBorrowedBuf.fromSlice [1, 2, 3]).unfilled.buf.filled ∧
      c2.buf.init = min (RevBorrowedBuf.fromSlice [1, 2, 3]).unfilled.buf.init
        ((RevBorrowedBuf.fromSlice [1, 2, 3]).unfilled.buf.filled - ([4, 5] : List Nat).length) ∧
      c2.buf.filled = (RevBorrowedBuf.fromSlice [1, 2, 3]).unfilled.buf.filled - ([4, 5] : List Nat).length ∧
      c2.written = (RevBorrowedBuf.fromSlice [1, 2, 3]).unfilled.written + ([4, 5] : List Nat).length ∧
      c2.capacity = (RevBorrowedBuf.fromSlice [1, 2, 3]).unfilled.capacity - ([4, 5] : List Nat).length ∧
      c2.buf.filledBytes = ([4, 5] : List Nat).map some ++
        (RevBorrowedBuf.fromSlice [1, 2, 3]).unfilled.buf.filledBytes) ∧
    ((RevBorrowedBuf.fromSlice [1, 2, 3]).unfilled.append [4, 5]).map
      (fun c2 => (c2.written, c2.capacity, c2.init_ref, c2.buf.filledBytes)) =
      some (2, 1, [some 1, some 4, some 5], [some 4, some 5]) :=
  ⟨⟨by decide, by decide⟩,
    append_spec ((RevBorrowedBuf.fromSlice [1, 2, 3]).unfilled) [4, 5]
      (by decide) (by decide) (by decide),
    by decide⟩

/-- C6: across every operation sequence on a reachable `RevBorrowedBuf`,
`init` never increases; in a single step, `filled` decreases only through
the cursor writes `advance`/`append`, increases only through `clear`, and
`clear` resets it to the capacity. -/
theorem boundary_monotonicity (b : RevBorrowedBuf) (op : Op) (b2 : RevBorrowedBuf)
    (ops : List Op) (b3 : RevBorrowedBuf) (hb : Reachable b)
    (h1 : applyOp b op = some b2) (h2 : applyOps b ops = some b3) :
    b3.init ≤ b.init ∧
    b2.init ≤ b.init ∧
    (b2.filled < b.filled → (∃ n, op = Op.advance n) ∨ (∃ d, op = Op.append d)) ∧
    (b.filled < b2.filled → op = Op.clear) ∧
    (op = Op.clear → b2.filled = b.capacity) := by
  obtain ⟨hc1, hc2, hc3⟩ := applyOp_filled_cases b b2 op (inv_of_reachable b hb) h1
  exact ⟨applyOps_init_le ops b b3 h2, applyOp_init_le b b2 op h1, hc1, hc2, hc3⟩

theorem boundary_monotonicity_witness :
    (applyOp (RevBorrowedBuf.fromSlice [1, 2]) (Op.advance 1) =
        some ⟨[some 1, some 2], 1, 0⟩ ∧
      applyOps (RevBorrowedBuf.fromSlice [1, 2]) [Op.clear] =
        some ⟨[some 1, some 2], 2, 0⟩) ∧
    ((⟨[some 1, some 2], 2, 0⟩ : RevBorrowedBuf).init ≤ (RevBorrowedBuf.fromSlice [1, 2]).init ∧
      (⟨[some 1, some 2], 1, 0⟩ : RevBorrowedBuf).init ≤ (RevBorrowedBuf.fromSlice [1, 2]).init ∧
      ((⟨[some 1, some 2], 1, 0⟩ : RevBorrowedBuf).filled < (RevBorrowedBuf.fromSlice [1, 2]).filled →
        (∃ n, Op.advance 1 = Op.advance n) ∨ (∃ d, Op.advance 1 = Op.append d)) ∧
      ((RevBorrowedBuf.fromSlice [1, 2]).filled < (⟨[some 1, some 2], 1, 0⟩ : RevBorrowedBuf).filled →
        Op.advance 1 = Op.clear) ∧
      (Op.advance 1 = Op.clear →
        (⟨[some 1, some 2], 1, 0⟩ : RevBorrowedBuf).filled = (RevBorrowedBuf.fromSlice [1, 2]).capacity)) :=
  ⟨⟨by decide, by decide⟩,
    boundary_monotonicity (RevBorrowedBuf.fromSlice [1, 2]) (Op.advance 1)
      ⟨[some 1, some 2], 1, 0⟩ [Op.clear] ⟨[some 1, some 2], 2, 0⟩
      (Reachable.fromSlice [1, 2]) (by decide) (by decide)⟩

/-- C7: for any structurally valid cursor (`init ≤` buffer length),
`ensure_init()` zero-fills exactly the prefix `[0, init)`, leaves the cells
at indices `≥ init` and the `filled` boundary and the `start` snapshot
untouched, and sets `init := 0`. -/
theorem ensure_init_spec (c : RevBorrowedCursor) (h : c.buf.init ≤ c.buf.buf.length) :
    c.ensure_init.buf.init = 0 ∧
    c.ensure_init.buf.filled = c.buf.filled ∧
    c.ensure_init.start = c.start ∧
    c.ensure_init.buf.buf.length = c.buf.buf.length ∧
    c.ensure_init.buf.buf.take c.buf.init = List.replicate c.buf.init (some 0) ∧
    c.ensure_init.buf.buf.drop c.buf.init = c.buf.buf.drop c.buf.init := by
  have hmin : min c.buf.init c.buf.buf.length = c.buf.init := min_eq_left h
  have hrep : (List.replicate (min c.buf.init c.buf.buf.length) ((some 0 : Cell))).length
      = c.buf.init := by
    rw [List.length_replicate, hmin]
  refine ⟨rfl, rfl, rfl, ?_, ?_, ?_⟩
  · dsimp only [RevBorrowedCursor.ensure_init]
    rw [List.length_append, List.length_replicate, List.length_drop, hmin]
    omega
  · dsimp only [RevBorrowedCursor.ensure_init]
    rw [List.take_left' hrep, hmin]
  · dsimp only [RevBorrowedCursor.ensure_init]
    rw [List.drop_left' hrep]

theorem ensure_init_spec_witness :
    ((RevBorrowedBuf.fromUninit (List.replicate 3 none)).unfilled.buf.init ≤
      (RevBorrowedBuf.fromUninit (List.replicate 3 none)).unfilled.buf.buf.length) ∧
    ((RevBorrowedBuf.fromUninit (List.replicate 3 none)).unfilled.ensure_init.buf.init = 0 ∧
      (RevBorrowedBuf.fromUninit (List.replicate 3 none)).unfilled.ensure_init.buf.filled =
        (RevBorrowedBuf.fromUninit (List.replicate 3 none)).unfilled.buf.filled ∧
      (RevBorrowedBuf.fromUninit (List.replicate 3 none)).unfilled.ensure_init.start =
        (RevBorrowedBuf.fromUninit (List.replicate 3 none)).unfilled.start ∧
      (RevBorrowedBuf.fromUninit (List.replicate 3 none)).unfilled.ensure_init.buf.buf.length =
        (RevBorrowedBuf.fromUninit (List.replicate 3 none)).unfilled.buf.buf.length ∧
      (RevBorrowedBuf.fromUninit (List.replicate 3 none)).unfilled.ensure_init.buf.buf.take
          (RevBorrowedBuf.fromUninit (List.replicate 3 none)).unfilled.buf.init =
        List.replicate (RevBorrowedBuf.fromUninit (List.replicate 3 none)).unfilled.buf.init (some 0) ∧
      (RevBorrowedBuf.fromUninit (List.replicate 3 none)).unfilled.ensure_init.buf.buf.drop
          (RevBorrowedBuf.fromUninit (List.replicate 3 none)).unfilled.buf.init =
        (RevBorrowedBuf.fromUninit (List.replicate 3 none)).unfilled.buf.buf.drop
          (RevBorrowedBuf.fromUninit (List.replicate 3 none)).unfilled.buf.init) ∧
    (RevBorrowedBuf.fromUninit (List.replicate 3 none)).unfilled.ensure_init.buf.buf =
      List.replicate 3 (some 0) :=
  ⟨by decide,
    ensure_init_spec ((RevBorrowedBuf.fromUninit (List.replicate 3 none)).unfilled) (by decide),
    by decide⟩

theorem appendAll_start_filled (ds : List (List Nat)) (c c2 : RevBorrowedCursor)
    (h : appendAll c ds = some c2) :
    c2.start = c.start ∧ c2.buf.filled + (ds.map List.length).sum = c.buf.filled := by
  induction ds generalizing c with
  | nil =>
    simp only [appendAll, Option.some_inj] at h
    subst h
    simp
  | cons d ds ih =>
    rw [appendAll] at h
    cases happ : c.append d with
    | none => rw [happ] at h; cases h
    | some c1 =>
      rw [happ] at h
      obtain ⟨hst, hf⟩ := ih c1 h
      rw [RevBorrowedCursor.append] at happ
      split at happ
      · cases happ
      · rename_i hcap
        rw [RevBorrowedCursor.capacity, not_lt] at hcap
        rw [Option.some_inj] at happ
        subst happ
        dsimp only at hst hf
        refine ⟨hst, ?_⟩
        rw [List.map_cons, List.sum_cons]
        omega

/-- C8: `reborrow()` yields a cursor over the same buffer with the same
`start` snapshot, and `written()` on the reborrowed cursor is cumulative
over the lineage: if `k` bytes were written before the reborrow
(`written = k`, with the source invariant `filled ≤ start`) and the
reborrowed cursor then appends chunks totalling `m` bytes, its `written()`
returns `k + m`. -/
theorem reborrow_written_cumulative (c : RevBorrowedCursor) (k : Nat)
    (ds : List (List Nat)) (c2 : RevBorrowedCursor)
    (hfs : c.buf.filled ≤ c.start) (hk : c.written = k)
    (h : appendAll c.reborrow ds = some c2) :
    c.reborrow.buf = c.buf ∧ c.reborrow.start = c.start ∧
    c2.written = k + (ds.map List.length).sum := by
  obtain ⟨hst, hf⟩ := appendAll_start_filled ds c.reborrow c2 h
  refine ⟨rfl, rfl, ?_⟩
  rw [RevBorrowedCursor.written] at hk ⊢
  rw [RevBorrowedCursor.reborrow] at hst hf
  dsimp only at hst hf
  omega

theorem reborrow_written_cumulative_witness :
    ((⟨⟨[some 1, some 4, some 5], 1, 0⟩, 3⟩ : RevBorrowedCursor).buf.filled ≤
        (⟨⟨[some 1, some 4, some 5], 1, 0⟩, 3⟩ : RevBorrowedCursor).start ∧
      (⟨⟨[some 1, some 4, some 5], 1, 0⟩, 3⟩ : RevBorrowedCursor).written = 2 ∧
      appendAll (⟨⟨[some 1, some 4, some 5], 1, 0⟩, 3⟩ : RevBorrowedCursor).reborrow [[7]] =
        some ⟨⟨[some 7, some 4, some 5], 0, 0⟩, 3⟩) ∧
    ((⟨⟨[some 1, some 4, some 5], 1, 0⟩, 3⟩ : RevBorrowedCursor).reborrow.buf =
        (⟨⟨[some 1, some 4, some 5], 1, 0⟩, 3⟩ : RevBorrowedCursor).buf ∧
      (⟨⟨[some 1, some 4, some 5], 1, 0⟩, 3⟩ : RevBorrowedCursor).reborrow.start =
        (⟨⟨[some 1, some 4, some 5], 1, 0⟩, 3⟩ : RevBorrowedCursor).start ∧
      (⟨⟨[some 7, some 4, some 5], 0, 0⟩, 3⟩ : RevBorrowedCursor).written =
        2 + (([[7]] : List (List Nat)).map List.length).sum) :=
  ⟨⟨by decide, by decide, by decide⟩,
    reborrow_written_cumulative ⟨⟨[some 1, some 4, some 5], 1, 0⟩, 3⟩ 2 [[7]]
      ⟨⟨[some 7, some 4, some 5], 0, 0⟩, 3⟩ (by decide) (by decide) (by decide)⟩

/-- C9: on every cursor whose buffer state is reachable (so that the
invariant `init ≤ filled` holds), appending the empty slice succeeds and is
a strict no-op: the resulting cursor state, boundaries and cells included,
is exactly the original one. -/
theorem append_nil_noop (c : RevBorrowedCursor) (h : Reachable c.buf) :
    c.append [] = some c := by
  obtain ⟨h1, _⟩ := inv_of_reachable c.buf h
  rw [RevBorrowedCursor.append, if_neg (by simp)]
  rw [Option.some_inj]
  have hb : writeBytes c.buf.buf (c.buf.filled - ([] : List Nat).length) [] = c.buf.buf := by
    simp [writeBytes]
  have hi : min c.buf.init (c.buf.filled - ([] : List Nat).length) = c.buf.init := by
    simp only [List.length_nil, Nat.sub_zero]
    exact min_eq_left h1
  have hf : c.buf.filled - ([] : List Nat).length = c.buf.filled := by simp
  rw [hb, hi, hf]

theorem append_nil_noop_witness :
    Reachable ((RevBorrowedBuf.fromSlice [1, 2]).unfilled).buf ∧
    (RevBorrowedBuf.fromSlice [1, 2]).unfilled.append [] =
      some ((RevBorrowedBuf.fromSlice [1, 2]).unfilled) :=
  ⟨Reachable.fromSlice [1, 2],
    append_nil_noop ((RevBorrowedBuf.fromSlice [1, 2]).unfilled) (Reachable.fromSlice [1, 2])⟩
